import Mathlib

/-
Verification of the icarogw population-inference library against its
specification.  The Python sources (src/icarogw/likelihood.py and
src/icarogw/priors.py) are shallowly embedded below.

Modelling conventions:
* Python/numpy double values are modelled by the inductive type PFloat:
  NaN, +inf, -inf and exact finite values in the rationals.  Arithmetic on
  PFloat follows the IEEE-754 special-value rules used by numpy, with the
  finite fragment idealised to exact rational arithmetic (no rounding).
* Values produced by collaborator modules that the likelihood only reads
  (injections, posterior_samples_dict, rate_model) are fields of an explicit
  state record; each field is documented with the source attribute or method
  call it stands for.
* log/exp pairs that are composed away in the source (pdf = exp(log_pdf),
  cdf = exp(log_cdf)) are modelled directly in linear space; where a bare
  log or exp survives, it is carried as an abstract function parameter
  (named E for exp and L for log), so every theorem is proved for all
  possible interpretations of it.
-/

/-- Model of a Python/numpy scalar double: NaN, the two infinities, or an
exact finite value (idealised as a rational). -/
inductive PFloat where
  | nan : PFloat
  | posInf : PFloat
  | negInf : PFloat
  | fin : ℚ → PFloat
deriving DecidableEq, Repr

namespace PFloat

/-- Largest finite IEEE-754 double, exactly: (2 - 2^-52) * 2^1023. -/
def maxFloatQ : ℚ := 2 ^ 1024 - 2 ^ 971

/-- Most negative finite IEEE-754 double. -/
def minFloatQ : ℚ := -maxFloatQ

/-- numpy nan_to_num with default arguments: NaN becomes 0, +inf becomes the
largest finite double, -inf the most negative finite double; finite values
pass through unchanged. -/
def pNanToNum : PFloat → PFloat
  | nan => fin 0
  | posInf => fin maxFloatQ
  | negInf => fin minFloatQ
  | fin q => fin q

/-- IEEE comparison a < b: false whenever either side is NaN. -/
def plt : PFloat → PFloat → Bool
  | nan, _ => false
  | _, nan => false
  | negInf, negInf => false
  | negInf, _ => true
  | posInf, _ => false
  | fin _, posInf => true
  | fin _, negInf => false
  | fin a, fin b => decide (a < b)

/-- IEEE comparison a > b. -/
def pgt (a b : PFloat) : Bool := plt b a

/-- IEEE equality: false whenever either side is NaN, structural otherwise. -/
def peq : PFloat → PFloat → Bool
  | nan, _ => false
  | _, nan => false
  | posInf, posInf => true
  | negInf, negInf => true
  | fin a, fin b => decide (a = b)
  | _, _ => false

/-- numpy isnan. -/
def pisnan : PFloat → Bool
  | nan => true
  | _ => false

/-- IEEE negation. -/
def pneg : PFloat → PFloat
  | nan => nan
  | posInf => negInf
  | negInf => posInf
  | fin q => fin (-q)

/-- IEEE addition: NaN propagates, opposite infinities give NaN. -/
def padd : PFloat → PFloat → PFloat
  | nan, _ => nan
  | _, nan => nan
  | posInf, negInf => nan
  | negInf, posInf => nan
  | posInf, _ => posInf
  | _, posInf => posInf
  | negInf, _ => negInf
  | _, negInf => negInf
  | fin a, fin b => fin (a + b)

/-- IEEE subtraction. -/
def psub (a b : PFloat) : PFloat := padd a (pneg b)

/-- IEEE multiplication: NaN propagates, infinity times zero gives NaN,
otherwise infinities follow the sign rules. -/
def pmul : PFloat → PFloat → PFloat
  | nan, _ => nan
  | _, nan => nan
  | posInf, posInf => posInf
  | posInf, negInf => negInf
  | negInf, posInf => negInf
  | negInf, negInf => posInf
  | posInf, fin b => if b = 0 then nan else if 0 < b then posInf else negInf
  | fin a, posInf => if a = 0 then nan else if 0 < a then posInf else negInf
  | negInf, fin b => if b = 0 then nan else if 0 < b then negInf else posInf
  | fin a, negInf => if a = 0 then nan else if 0 < a then negInf else posInf
  | fin a, fin b => fin (a * b)

/-- IEEE division: NaN propagates, inf/inf and 0/0 give NaN, division of a
nonzero finite value by zero gives a signed infinity (numpy emits a warning
but returns the infinity), finite/inf gives zero. -/
def pdiv : PFloat → PFloat → PFloat
  | nan, _ => nan
  | _, nan => nan
  | posInf, posInf => nan
  | posInf, negInf => nan
  | negInf, posInf => nan
  | negInf, negInf => nan
  | posInf, fin b => if 0 ≤ b then posInf else negInf
  | negInf, fin b => if 0 ≤ b then negInf else posInf
  | fin _, posInf => fin 0
  | fin _, negInf => fin 0
  | fin a, fin b =>
      if b = 0 then (if a = 0 then nan else if 0 < a then posInf else negInf)
      else fin (a / b)

/-- numpy sum of a 1-d array (exact, so the summation order is immaterial on
the finite fragment; special values follow IEEE addition). -/
def psum (l : List PFloat) : PFloat := l.foldl padd (fin 0)

end PFloat

open PFloat

/-- State read by hierarchical_likelihood.log_likelihood (likelihood.py
lines 54-111) after the rate model and the weight caches have been updated.
Each field records the value of one collaborator attribute or method call. -/
structure LState where
  /-- injections.effective_injections_number() -/
  Neff : PFloat
  /-- self.neffINJ as set by the constructor -/
  neffINJ : ℚ
  /-- self.neffPE as set by the constructor -/
  neffPE : ℚ
  /-- posterior_samples_dict.get_effective_number_of_PE() -/
  neff_PE_ev : List PFloat
  /-- posterior_samples_dict.Ns_array -/
  Ns_array : List ℚ
  /-- posterior_samples_dict.n_ev -/
  n_ev : ℕ
  /-- injections.ntotal -/
  ntotal : ℚ
  /-- self.likelihood_variance_thr -/
  thr : Option ℚ
  /-- rate_model.scale_free -/
  scale_free : Bool
  /-- elementwise xp.log(posterior_samples_dict.sum_weights) -/
  logSumWeights : List PFloat
  /-- xp.log(injections.pseudo_rate) -/
  logPseudoRate : PFloat
  /-- xp.log(injections.Tobs) -/
  logTobs : PFloat
  /-- injections.expected_number_detections() -/
  Nexp : PFloat

/-- Effective (neffPE, neffINJ) pair set by hierarchical_likelihood.__init__
(likelihood.py lines 40-50): with a variance threshold both are forced to -1;
otherwise neffINJ defaults to 4 times the number of observed events. -/
def hl_init (neffPE : ℚ) (neffINJ : Option ℚ) (thr : Option ℚ) (n_ev : ℕ) :
    ℚ × ℚ :=
  match thr with
  | some _ => (-1, -1)
  | none =>
      match neffINJ with
      | none => (neffPE, 4 * (n_ev : ℚ))
      | some v => (neffPE, v)

/-- Injection gate, likelihood.py line 74: (Neff < neffINJ) | (Neff == 0.). -/
def gateINJ (s : LState) : Bool :=
  plt s.Neff (PFloat.fin s.neffINJ) || peq s.Neff (PFloat.fin 0)

/-- Per-event PE gate, likelihood.py line 81: any(neff_PE_ev < neffPE). -/
def gatePE (s : LState) : Bool :=
  s.neff_PE_ev.any (fun v => plt v (PFloat.fin s.neffPE))

/-- Likelihood-variance diagnostic, likelihood.py lines 84-86:
(n_ev^2/Neff)*(1-Neff/ntotal) + sum(neff_PE^-1 * (1-neff_PE/Ns_array)). -/
def likelihoodVariance (s : LState) : PFloat :=
  padd
    (pmul (pdiv (PFloat.fin ((s.n_ev : ℚ) ^ 2)) s.Neff)
      (psub (PFloat.fin 1) (pdiv s.Neff (PFloat.fin s.ntotal))))
    (psum (List.zipWith
      (fun v ns => pmul (pdiv (PFloat.fin 1) v)
        (psub (PFloat.fin 1) (pdiv v (PFloat.fin ns))))
      s.neff_PE_ev s.Ns_array))

/-- Variance gate, likelihood.py lines 88-90: active only when a threshold
is configured, fires when likelihood_variance > threshold. -/
def gateVar (s : LState) : Bool :=
  match s.thr with
  | some t => pgt (likelihoodVariance s) (PFloat.fin t)
  | none => false

/-- Combination step, likelihood.py lines 93-99: scale-free models use
sum(log(sum_weights)) - n_ev*log(pseudo_rate), rate-normalised models use
-Nexp + n_ev*log(Tobs) + sum(log(sum_weights)). -/
def combineTerms (s : LState) : PFloat :=
  if s.scale_free then
    psub (psum s.logSumWeights) (pmul (PFloat.fin (s.n_ev : ℚ)) s.logPseudoRate)
  else
    padd (padd (pneg s.Nexp) (pmul (PFloat.fin (s.n_ev : ℚ)) s.logTobs))
      (psum s.logSumWeights)

/-- Sanitisation step, likelihood.py lines 103-111: raise on +inf, map NaN
through nan_to_num(-inf), pass every other value through nan_to_num. -/
def pSanitize (l : PFloat) : Except String PFloat :=
  if peq l PFloat.posInf then
    Except.error "LOG-likelihood must be smaller than infinite"
  else if pisnan l then Except.ok (pNanToNum PFloat.negInf)
  else Except.ok (pNanToNum l)

/-- hierarchical_likelihood.log_likelihood, likelihood.py lines 54-111, as a
function of the post-update state.  Rejection paths return
float(nan_to_num(-inf)); the only exception is the +inf invariant check. -/
def log_likelihood (s : LState) : Except String PFloat :=
  if gateINJ s then Except.ok (pNanToNum PFloat.negInf)
  else if gatePE s then Except.ok (pNanToNum PFloat.negInf)
  else if gateVar s then Except.ok (pNanToNum PFloat.negInf)
  else pSanitize (combineTerms s)

/-- Modelled from the spec: check_bounds_1D lives in icarogw.cupy_pal, which
is not among the provided sources; per the bound-masking rule of the spec it marks
every position where x lies outside the closed interval [minval, maxval]. -/
def checkBounds1D (x minv maxv : ℚ) : Bool :=
  decide (x < minv) || decide (maxv < x)

/-- Scalar value of _highpass_filter (priors.py lines 116-155).  The source
operates elementwise on an array with three masked reassignments; the masks
are disjoint only for positive widths, and the assignment order (zero mask
first, one mask second) is preserved here.  The exponential is carried as the
abstract parameter E; the nan_to_num applied to its argument in the source is
inert on the window region, where both denominators are nonzero. -/
def highpass_filter (E : ℚ → ℚ) (mmin delta_m x : ℚ) : ℚ :=
  if delta_m = 0 then 1
  else
    let effe : ℚ :=
      if mmin < x ∧ x < delta_m + mmin then
        E (delta_m / (x - mmin) + delta_m / (x - mmin - delta_m))
      else 1
    let afterZero : ℚ := if x ≤ mmin then 0 else 1 / (effe + 1)
    if delta_m + mmin ≤ x then 1 else afterZero

/-- Abstract 1-d base distribution as consumed by LowpassSmoothedProb: the
public (already bound-masked) pdf and cdf of the wrapped origin object,
together with its bounds. -/
structure Basic1D where
  minval : ℚ
  maxval : ℚ
  pdf : ℚ → ℚ
  cdf : ℚ → ℚ

/-- np.linspace(a, b, n): n evenly spaced points from a to b inclusive. -/
def linspace (a b : ℚ) (n : ℕ) : List ℚ :=
  (List.range n).map (fun i => a + (b - a) * (i : ℚ) / ((n : ℚ) - 1))

/-- np.trapz(y, x): trapezoid rule over consecutive pairs. -/
def trapz : List ℚ → List ℚ → ℚ
  | y1 :: y2 :: ys, x1 :: x2 :: xs =>
      (x2 - x1) * (y1 + y2) / 2 + trapz (y2 :: ys) (x2 :: xs)
  | _, _ => 0

/-- Helper for np.cumsum carrying the running total. -/
def cumsumAux (acc : ℚ) : List ℚ → List ℚ
  | [] => []
  | y :: ys => (acc + y) :: cumsumAux (acc + y) ys

/-- np.cumsum: list of prefix sums. -/
def cumsum (l : List ℚ) : List ℚ := cumsumAux 0 l

/-- np.interp(x, xs, fs) for increasing xs: clamps to the first value below
the grid and to the last value above it, linear interpolation between
consecutive grid points. -/
def npInterp (x : ℚ) : List ℚ → List ℚ → ℚ
  | x1 :: x2 :: xs, f1 :: f2 :: fs =>
      if x ≤ x1 then f1
      else if x ≤ x2 then f1 + (f2 - f1) * (x - x1) / (x2 - x1)
      else npInterp x (x2 :: xs) (f2 :: fs)
  | _ :: [], f1 :: _ => f1
  | _, _ => 0

namespace LowpassSmoothedProb

/-- int_array and x_eval of LowpassSmoothedProb.__init__ (priors.py lines
550 and 559): 1000 points from minval to minval + bottomsmooth. -/
def windowGrid (origin : Basic1D) (s : ℚ) : List ℚ :=
  linspace origin.minval (origin.minval + s) 1000

/-- integral_before (priors.py line 551): trapezoid integral of the origin
pdf over the window grid. -/
def integralBefore (origin : Basic1D) (s : ℚ) : ℚ :=
  trapz ((windowGrid origin s).map origin.pdf) (windowGrid origin s)

/-- integral_now (priors.py line 552): trapezoid integral of the origin pdf
multiplied by the highpass window over the window grid. -/
def integralNow (E : ℚ → ℚ) (origin : Basic1D) (s : ℚ) : ℚ :=
  trapz ((windowGrid origin s).map
      (fun x => origin.pdf x * highpass_filter E origin.minval s x))
    (windowGrid origin s)

/-- self.norm (priors.py line 557): 1 - integral_before + integral_now. -/
def norm (E : ℚ → ℚ) (origin : Basic1D) (s : ℚ) : ℚ :=
  1 - integralBefore origin s + integralNow E origin s

/-- Linear-space value of LowpassSmoothedProb._log_pdf (priors.py lines
565-583): origin pdf times the window, divided by the normalisation. -/
def pdfRaw (E : ℚ → ℚ) (origin : Basic1D) (s x : ℚ) : ℚ :=
  origin.pdf x * highpass_filter E origin.minval s x / norm E origin s

/-- Public pdf of the smoothed distribution: basic_1dimpdf.pdf composes
exp(log_pdf) with the bound masking of _check_bound_pdf, which zeroes every
position outside [minval, maxval]. -/
def pdf (E : ℚ → ℚ) (origin : Basic1D) (s x : ℚ) : ℚ :=
  if checkBounds1D x origin.minval origin.maxval then 0
  else pdfRaw E origin s x

/-- Midpoint grid (x_eval[:-1] + x_eval[1:]) * 0.5 used both to build
cdf_numeric (priors.py line 560) and as interpolation abscissae (line 613). -/
def midGrid (origin : Basic1D) (s : ℚ) : List ℚ :=
  List.zipWith (fun a b => (a + b) * (1 / 2))
    (windowGrid origin s).dropLast (windowGrid origin s).tail

/-- Grid spacings x_eval[1:] - x_eval[:-1] (priors.py line 560). -/
def gridDiffs (origin : Basic1D) (s : ℚ) : List ℚ :=
  List.zipWith (fun a b => b - a)
    (windowGrid origin s).dropLast (windowGrid origin s).tail

/-- cdf_numeric (priors.py line 560): cumulative sum of the smoothed pdf at
the midpoints, multiplied elementwise by the grid spacings. -/
def cdfNumeric (E : ℚ → ℚ) (origin : Basic1D) (s : ℚ) : List ℚ :=
  List.zipWith (fun c d => c * d)
    (cumsum ((midGrid origin s).map (pdf E origin s)))
    (gridDiffs origin s)

/-- Linear-space value of LowpassSmoothedProb._log_cdf (priors.py lines
585-618).  The source fills an all-ones array and reassigns three masked
regions in order (below the window, inside the window, at or above the
window edge); a later assignment overrides an earlier one, so the tail
branch wins at the window edge itself. -/
def cdfRaw (E : ℚ → ℚ) (origin : Basic1D) (s x : ℚ) : ℚ :=
  if origin.minval + s ≤ x then
    (integralNow E origin s + origin.cdf x - origin.cdf (origin.minval + s)) /
      norm E origin s
  else if origin.minval ≤ x ∧ x ≤ origin.minval + s then
    npInterp x (midGrid origin s) (cdfNumeric E origin s)
  else if x < origin.minval then 0
  else 1

end LowpassSmoothedProb

/-- PL_normfact (priors.py lines 821-833) with the exponent restricted to
the integers so that the power is exact; the alpha = -1 branch carries the
abstract logarithm L applied to maxpl/minpl. -/
def PL_normfact (L : ℚ → ℚ) (minpl maxpl : ℚ) (alpha : ℤ) : ℚ :=
  if alpha = -1 then L (maxpl / minpl)
  else (maxpl ^ (alpha + 1) - minpl ^ (alpha + 1)) / ((alpha : ℚ) + 1)

/-- PowerLaw._log_pdf (priors.py lines 865-880): alpha*log(x) - log(norm),
with the logarithm abstract. -/
def PowerLaw_log_pdf (L : ℚ → ℚ) (minpl maxpl : ℚ) (alpha : ℤ) (x : ℚ) : ℚ :=
  (alpha : ℚ) * L x - L (PL_normfact L minpl maxpl alpha)

/-- Linear-space value of PowerLaw._log_pdf: exp(alpha*log x - log norm)
becomes x^alpha / norm for an integer exponent. -/
def PowerLaw_pdfRaw (L : ℚ → ℚ) (minpl maxpl : ℚ) (alpha : ℤ) (x : ℚ) : ℚ :=
  x ^ alpha / PL_normfact L minpl maxpl alpha

/-- Public pdf of PowerLaw: linear-space _log_pdf with the bound masking of
basic_1dimpdf applied (zero outside [minpl, maxpl]). -/
def PowerLaw_pdf (L : ℚ → ℚ) (minpl maxpl : ℚ) (alpha : ℤ) (x : ℚ) : ℚ :=
  if checkBounds1D x minpl maxpl then 0 else PowerLaw_pdfRaw L minpl maxpl alpha x

namespace BrokenPowerLaw

/-- self.break_point (priors.py line 1342): minpl + b*(maxpl - minpl). -/
def breakPoint (minpl maxpl b : ℚ) : ℚ := minpl + b * (maxpl - minpl)

/-- First component power law PL1 = PowerLaw(minpl, break_point, alpha_1)
evaluated through its public pdf. -/
def pl1 (L : ℚ → ℚ) (minpl maxpl : ℚ) (a1 : ℤ) (b x : ℚ) : ℚ :=
  PowerLaw_pdf L minpl (breakPoint minpl maxpl b) a1 x

/-- Second component power law PL2 = PowerLaw(break_point, maxpl, alpha_2)
evaluated through its public pdf. -/
def pl2 (L : ℚ → ℚ) (minpl maxpl : ℚ) (a2 : ℤ) (b x : ℚ) : ℚ :=
  PowerLaw_pdf L (breakPoint minpl maxpl b) maxpl a2 x

/-- self.norm_fact (priors.py line 1345):
1 + PL1.pdf(break_point) / PL2.pdf(break_point). -/
def norm_fact (L : ℚ → ℚ) (minpl maxpl : ℚ) (a1 a2 : ℤ) (b : ℚ) : ℚ :=
  1 + pl1 L minpl maxpl a1 b (breakPoint minpl maxpl b) /
    pl2 L minpl maxpl a2 b (breakPoint minpl maxpl b)

/-- Contribution of the first power law to the normalised broken-power-law
pdf: first summand of the linearised logaddexp in _log_pdf (priors.py lines
1361-1362), divided by norm_fact. -/
def component1 (L : ℚ → ℚ) (minpl maxpl : ℚ) (a1 a2 : ℤ) (b x : ℚ) : ℚ :=
  pl1 L minpl maxpl a1 b x / norm_fact L minpl maxpl a1 a2 b

/-- Contribution of the second power law: the second summand of the
linearised logaddexp carries the continuity factor
PL1.pdf(break)/PL2.pdf(break), divided by norm_fact. -/
def component2 (L : ℚ → ℚ) (minpl maxpl : ℚ) (a1 a2 : ℤ) (b x : ℚ) : ℚ :=
  pl2 L minpl maxpl a2 b x *
    (pl1 L minpl maxpl a1 b (breakPoint minpl maxpl b) /
      pl2 L minpl maxpl a2 b (breakPoint minpl maxpl b)) /
    norm_fact L minpl maxpl a1 a2 b

/-- Linear-space value of BrokenPowerLaw._log_pdf (priors.py lines
1347-1363): exp(logaddexp(a, b + c - d) - log n) = (e^a + e^b e^c / e^d)/n. -/
def pdfRaw (L : ℚ → ℚ) (minpl maxpl : ℚ) (a1 a2 : ℤ) (b x : ℚ) : ℚ :=
  (pl1 L minpl maxpl a1 b x +
    pl2 L minpl maxpl a2 b x *
      (pl1 L minpl maxpl a1 b (breakPoint minpl maxpl b) /
        pl2 L minpl maxpl a2 b (breakPoint minpl maxpl b))) /
    norm_fact L minpl maxpl a1 a2 b

end BrokenPowerLaw

/-- betadistro_muvar2ab (priors.py lines 160-178): shape parameters (a, b)
of a beta distribution from mean and variance;
a = ((1-mu)/var - 1/mu) * mu^2 and b = a*(1/mu - 1). -/
def betadistro_muvar2ab (mu var : ℚ) : ℚ × ℚ :=
  let a : ℚ := ((1 - mu) / var - 1 / mu) * mu ^ 2
  (a, a * (1 / mu - 1))

/-- betadistro_ab2muvar (priors.py lines 181-197): mean and variance of a
beta distribution from its shape parameters;
mu = a/(a+b) and var = a*b/((a+b)^2 * (a+b+1)). -/
def betadistro_ab2muvar (a b : ℚ) : ℚ × ℚ :=
  (a / (a + b), a * b / ((a + b) ^ 2 * (a + b + 1)))

/-- basic_1dimpdf.log_pdf (priors.py lines 254-269) for an arbitrary
underlying _log_pdf f: _check_bound_pdf overwrites with -inf every position
flagged by check_bounds_1D. -/
def basic_log_pdf (f : ℚ → PFloat) (minv maxv x : ℚ) : PFloat :=
  if checkBounds1D x minv maxv then PFloat.negInf else f x

/-- basic_1dimpdf.log_cdf (priors.py lines 235-252, 271-286) for an
arbitrary underlying _log_cdf g: _check_bound_cdf assigns -inf below minval
and then 0 above maxval, the later assignment taking precedence. -/
def basic_log_cdf (g : ℚ → PFloat) (minv maxv x : ℚ) : PFloat :=
  if maxv < x then PFloat.fin 0
  else if x < minv then PFloat.negInf
  else g x

/-- xp.exp on a PFloat, with the finite branch carried by the abstract
exponential E; exp(-inf) = 0 and exp(+inf) = +inf. -/
def pexp (E : ℚ → ℚ) : PFloat → PFloat
  | PFloat.nan => PFloat.nan
  | PFloat.posInf => PFloat.posInf
  | PFloat.negInf => PFloat.fin 0
  | PFloat.fin q => PFloat.fin (E q)

/-- basic_1dimpdf.pdf (priors.py lines 288-302): exp of the masked log pdf. -/
def basic_pdf (E : ℚ → ℚ) (f : ℚ → PFloat) (minv maxv x : ℚ) : PFloat :=
  pexp E (basic_log_pdf f minv maxv x)

/-- basic_1dimpdf.cdf (priors.py lines 304-318): exp of the masked log cdf. -/
def basic_cdf (E : ℚ → ℚ) (g : ℚ → PFloat) (minv maxv x : ℚ) : PFloat :=
  pexp E (basic_log_cdf g minv maxv x)

/-- Concrete evaluator state with too few effective injections: Neff = 1
against a configured neffINJ = 10. -/
def c1State : LState :=
  { Neff := PFloat.fin 1, neffINJ := 10, neffPE := 20,
    neff_PE_ev := [PFloat.fin 100], Ns_array := [200], n_ev := 1, ntotal := 50,
    thr := none, scale_free := true, logSumWeights := [PFloat.fin 1],
    logPseudoRate := PFloat.fin 0, logTobs := PFloat.fin 0,
    Nexp := PFloat.fin 1 }

/-- Concrete evaluator state in variance-threshold mode (thr = 1, so the
constructor stored neffINJ = neffPE = -1) with Neff = -2: the injection gate
fires although the variance diagnostic evaluates to -1/2, below the
threshold. -/
def c2State : LState :=
  { Neff := PFloat.fin (-2), neffINJ := -1, neffPE := -1,
    neff_PE_ev := [PFloat.fin 4], Ns_array := [8], n_ev := 1, ntotal := 8,
    thr := some 1, scale_free := true, logSumWeights := [PFloat.fin 1],
    logPseudoRate := PFloat.fin 0, logTobs := PFloat.fin 0,
    Nexp := PFloat.fin 1 }

/-- Concrete evaluator state in variance-threshold mode that passes every
gate, used to exercise the variance branch. -/
def c2WitState : LState :=
  { Neff := PFloat.fin 5, neffINJ := -1, neffPE := -1,
    neff_PE_ev := [PFloat.fin 4], Ns_array := [8], n_ev := 1, ntotal := 10,
    thr := some 1, scale_free := true, logSumWeights := [PFloat.fin 2],
    logPseudoRate := PFloat.fin 0, logTobs := PFloat.fin 0,
    Nexp := PFloat.fin 1 }

/-- Concrete evaluator state that passes every gate but whose combined
log-likelihood is NaN (the per-event log weight sum is NaN). -/
def c3State : LState :=
  { Neff := PFloat.fin 100, neffINJ := 1, neffPE := 1,
    neff_PE_ev := [PFloat.fin 100], Ns_array := [200], n_ev := 1,
    ntotal := 1000, thr := none, scale_free := true,
    logSumWeights := [PFloat.nan], logPseudoRate := PFloat.fin 0,
    logTobs := PFloat.fin 0, Nexp := PFloat.fin 1 }

/-- Concrete evaluator state that passes every gate with a finite combined
log-likelihood (scale-free branch, value 3). -/
def c3WitState : LState :=
  { Neff := PFloat.fin 100, neffINJ := 1, neffPE := 1,
    neff_PE_ev := [PFloat.fin 100], Ns_array := [200], n_ev := 2,
    ntotal := 1000, thr := none, scale_free := true,
    logSumWeights := [PFloat.fin 5], logPseudoRate := PFloat.fin 1,
    logTobs := PFloat.fin 0, Nexp := PFloat.fin 1 }

/-- Concrete evaluator state that passes every gate, rate-normalised branch
(scale_free = false), finite combined log-likelihood 4. -/
def c4WitState : LState :=
  { Neff := PFloat.fin 100, neffINJ := 1, neffPE := 1,
    neff_PE_ev := [PFloat.fin 100], Ns_array := [200], n_ev := 2,
    ntotal := 1000, thr := none, scale_free := false,
    logSumWeights := [PFloat.fin 5], logPseudoRate := PFloat.fin 1,
    logTobs := PFloat.fin 0, Nexp := PFloat.fin 1 }

/-- C1 (counterexample): with Neff = 1 below neffINJ = 10 the evaluator does
return a rejection value, but that value is the most negative finite double
float(nan_to_num(-inf)), not -inf as the claim states. -/
theorem c1_counterexample :
    log_likelihood c1State = Except.ok (PFloat.fin minFloatQ) ∧
      PFloat.fin minFloatQ ≠ PFloat.negInf :=
  ⟨rfl, by decide⟩

/-- C1 (amended): whenever Neff < neffINJ or Neff == 0 under IEEE
comparison, log_likelihood returns the rejection constant
float(nan_to_num(-inf)) = -(2^1024 - 2^971), the most negative finite
double, and raises no exception; in particular an arbitrarily high neffINJ
forces this value regardless of the other population parameters. -/
theorem c1_gate_returns_rejection_value (s : LState)
    (h : plt s.Neff (PFloat.fin s.neffINJ) = true ∨
      peq s.Neff (PFloat.fin 0) = true) :
    log_likelihood s = Except.ok (PFloat.fin minFloatQ) := by
  have hg : gateINJ s = true := by
    cases h with
    | inl h => simp [gateINJ, h]
    | inr h => simp [gateINJ, h]
  simp [log_likelihood, hg, pNanToNum]

theorem c1_gate_returns_rejection_value_witness :
    (plt c1State.Neff (PFloat.fin c1State.neffINJ) = true ∨
      peq c1State.Neff (PFloat.fin 0) = true) ∧
    log_likelihood c1State = Except.ok (PFloat.fin minFloatQ) :=
  ⟨Or.inl (by decide),
    c1_gate_returns_rejection_value c1State (Or.inl (by decide))⟩

/-- C2 (counterexample): in variance-threshold mode (thr = 1) the state
c2State has a variance diagnostic of -1/2, below the threshold, yet
log_likelihood still returns the rejection value because Neff = -2 trips the
injection gate (whose threshold was set to -1, not removed); so the neff
gates are not disabled entirely and rejection is not exactly characterised
by the variance exceeding the threshold. -/
theorem c2_counterexample :
    c2State.thr = some 1 ∧
    likelihoodVariance c2State = PFloat.fin (-(1 / 2)) ∧
    (-(1 / 2) : ℚ) ≤ 1 ∧
    log_likelihood c2State = Except.ok (PFloat.fin minFloatQ) := by
  refine ⟨rfl, ?_, by norm_num, rfl⟩
  norm_num [likelihoodVariance, c2State, pdiv, pmul, padd, psub, pneg, psum,
    List.zipWith, List.foldl]

/-- C2 (amended): with likelihood_variance_thr set, the constructor forces
neffPE = neffINJ = -1 rather than removing the gates; for states where those
relaxed gates do not fire (Neff not below -1, not equal to 0, and no
neff_PE below -1), log_likelihood rejects exactly when the variance
diagnostic exceeds the threshold, and otherwise proceeds to the sanitised
combination. -/
theorem c2_variance_mode (t : ℚ) :
    (∀ pe : ℚ, ∀ inj : Option ℚ, ∀ n : ℕ,
      hl_init pe inj (some t) n = (-1, -1)) ∧
    (∀ s : LState, s.thr = some t → gateINJ s = false → gatePE s = false →
      log_likelihood s =
        if pgt (likelihoodVariance s) (PFloat.fin t) then
          Except.ok (PFloat.fin minFloatQ)
        else pSanitize (combineTerms s)) := by
  constructor
  · intro pe inj n; rfl
  · intro s hthr h1 h2
    have hg : gateVar s = pgt (likelihoodVariance s) (PFloat.fin t) := by
      simp [gateVar, hthr]
    by_cases hv : pgt (likelihoodVariance s) (PFloat.fin t) = true
    · simp [log_likelihood, h1, h2, hg, hv, pNanToNum]
    · simp only [Bool.not_eq_true] at hv
      simp [log_likelihood, h1, h2, hg, hv]

theorem c2_variance_mode_witness :
    hl_init 20 none (some 1) 3 = (-1, -1) ∧
    (c2WitState.thr = some 1 ∧ gateINJ c2WitState = false ∧
      gatePE c2WitState = false) ∧
    log_likelihood c2WitState =
      (if pgt (likelihoodVariance c2WitState) (PFloat.fin 1) then
        Except.ok (PFloat.fin minFloatQ)
      else pSanitize (combineTerms c2WitState)) :=
  ⟨(c2_variance_mode 1).1 20 none 3,
   ⟨rfl, by decide, by decide⟩,
   (c2_variance_mode 1).2 c2WitState rfl (by decide) (by decide)⟩

/-- C3 (counterexample): a NaN combined log-likelihood is not mapped to
-inf: the state c3State passes every gate, combines to NaN, and
log_likelihood returns the most negative finite double instead of -inf. -/
theorem c3_counterexample :
    combineTerms c3State = PFloat.nan ∧
    log_likelihood c3State = Except.ok (PFloat.fin minFloatQ) ∧
    PFloat.fin minFloatQ ≠ PFloat.negInf :=
  ⟨rfl, rfl, by decide⟩

/-- C3 (amended): when no rejection gate fires, log_likelihood raises an
exception if and only if the combined log-likelihood is +inf; a NaN or -inf
combined value is mapped to the most negative finite double
float(nan_to_num(-inf)); every finite combined value is returned as-is. -/
theorem c3_sanitize (s : LState) (h1 : gateINJ s = false)
    (h2 : gatePE s = false) (h3 : gateVar s = false) :
    ((∃ m, log_likelihood s = Except.error m) ↔
      combineTerms s = PFloat.posInf) ∧
    (combineTerms s = PFloat.nan →
      log_likelihood s = Except.ok (PFloat.fin minFloatQ)) ∧
    (combineTerms s = PFloat.negInf →
      log_likelihood s = Except.ok (PFloat.fin minFloatQ)) ∧
    (∀ q : ℚ, combineTerms s = PFloat.fin q →
      log_likelihood s = Except.ok (PFloat.fin q)) := by
  have hl : log_likelihood s = pSanitize (combineTerms s) := by
    simp [log_likelihood, h1, h2, h3]
  rw [hl]
  cases hc : combineTerms s with
  | nan => simp [pSanitize, peq, pisnan, pNanToNum]
  | posInf => simp [pSanitize, peq, pisnan, pNanToNum]
  | negInf => simp [pSanitize, peq, pisnan, pNanToNum]
  | fin q => simp [pSanitize, peq, pisnan, pNanToNum]

theorem c3_sanitize_witness :
    (gateINJ c3WitState = false ∧ gatePE c3WitState = false ∧
      gateVar c3WitState = false ∧ combineTerms c3WitState = PFloat.fin 3) ∧
    log_likelihood c3WitState = Except.ok (PFloat.fin 3) :=
  ⟨⟨by decide, by decide, by decide,
     by norm_num [combineTerms, c3WitState, psub, padd, pneg, pmul, psum,
       List.foldl]⟩,
   (c3_sanitize c3WitState (by decide) (by decide) (by decide)).2.2.2 3
     (by norm_num [combineTerms, c3WitState, psub, padd, pneg, pmul, psum,
       List.foldl])⟩

/-- C4: when no rejection gate fires, the evaluator returns the sanitised
combination: for scale-free rate models the sum over events of
log(sum_weights) minus n_ev * log(pseudo_rate), otherwise -N_expected (from
injections.expected_number_detections()) plus n_ev * log(Tobs) plus the sum
over events of log(sum_weights). -/
theorem c4_combination (s : LState) (h1 : gateINJ s = false)
    (h2 : gatePE s = false) (h3 : gateVar s = false) :
    log_likelihood s =
      pSanitize (if s.scale_free then
          psub (psum s.logSumWeights)
            (pmul (PFloat.fin (s.n_ev : ℚ)) s.logPseudoRate)
        else
          padd (padd (pneg s.Nexp) (pmul (PFloat.fin (s.n_ev : ℚ)) s.logTobs))
            (psum s.logSumWeights)) := by
  simp [log_likelihood, h1, h2, h3, combineTerms]

theorem c4_combination_witness :
    (gateINJ c4WitState = false ∧ gatePE c4WitState = false ∧
      gateVar c4WitState = false) ∧
    log_likelihood c4WitState =
      pSanitize (if c4WitState.scale_free then
          psub (psum c4WitState.logSumWeights)
            (pmul (PFloat.fin (c4WitState.n_ev : ℚ)) c4WitState.logPseudoRate)
        else
          padd (padd (pneg c4WitState.Nexp)
            (pmul (PFloat.fin (c4WitState.n_ev : ℚ)) c4WitState.logTobs))
            (psum c4WitState.logSumWeights)) :=
  ⟨⟨by decide, by decide, by decide⟩,
   c4_combination c4WitState (by decide) (by decide) (by decide)⟩

/-- C5 (counterexample): the claim quantifies over every delta, but for a
negative width the regions overlap and the one-clamp (applied last in the
source) wins: at x = min = 0 with delta = -1 the filter returns 1, not the
0 the claim asserts for x ≤ min. -/
theorem c5_counterexample :
    highpass_filter (fun q => q) 0 (-1) 0 ≠ 0 ∧
    highpass_filter (fun q => q) 0 (-1) 0 = 1 := by
  constructor <;> norm_num [highpass_filter]

/-- C5 (amended): for every nonnegative width delta the highpass window is 0
for x ≤ min, 1 for x ≥ min + delta, and 1/(1 + exp(delta/(x-min) +
delta/(x-min-delta))) strictly between the boundaries (with the exponential
abstract); delta = 0 gives the identity window, and exact boundary values
are clamped to 0 or 1 without evaluating the transition formula. -/
theorem c5_highpass_regions (E : ℚ → ℚ) (mmin delta x : ℚ) (hd : 0 ≤ delta) :
    highpass_filter E mmin delta x =
      if delta = 0 then 1
      else if x ≤ mmin then 0
      else if mmin + delta ≤ x then 1
      else 1 / (1 + E (delta / (x - mmin) + delta / (x - mmin - delta))) := by
  unfold highpass_filter
  by_cases h0 : delta = 0
  · simp [h0]
  · have hdpos : 0 < delta := lt_of_le_of_ne hd (Ne.symm h0)
    simp only [h0, if_false]
    by_cases h1 : x ≤ mmin
    · have h2 : ¬ delta + mmin ≤ x := by linarith
      simp [h1, h2]
    · by_cases h2 : delta + mmin ≤ x
      · have h3 : mmin + delta ≤ x := by linarith
        simp [h1, h2, h3]
      · have h3 : ¬ mmin + delta ≤ x := by linarith
        have h4 : mmin < x := lt_of_not_le h1
        have h5 : x < delta + mmin := lt_of_not_le h2
        simp only [h1, h2, h3, if_false, h4, h5, and_self, if_true]
        rw [add_comm]

theorem c5_highpass_regions_witness :
    (0 : ℚ) ≤ 2 ∧
    highpass_filter (fun q => q) 0 2 1 =
      (if (2 : ℚ) = 0 then 1
      else if (1 : ℚ) ≤ 0 then 0
      else if (0 : ℚ) + 2 ≤ 1 then 1
      else 1 / (1 + ((2 : ℚ) / (1 - 0) + 2 / (1 - 0 - 2)))) :=
  ⟨by norm_num, c5_highpass_regions (fun q => q) 0 2 1 (by norm_num)⟩

/-- C7 (counterexample): the concrete numbers in the claim are off by a
factor of ten: PowerLaw(min=5, max=100, alpha=-2) has norm_fact
(100^-1 - 5^-1)/(-1) = 19/100 = 0.19, not 0.0190, and pdf(10) =
10^-2/norm_fact = 1/19, which is about 0.0526, more than 0.1 away from the
claimed 0.526. -/
theorem c7_counterexample :
    PL_normfact (fun q => q) 5 100 (-2) = 19 / 100 ∧
    (19 / 100 : ℚ) ≠ 19 / 1000 ∧
    PowerLaw_pdf (fun q => q) 5 100 (-2) 10 = 1 / 19 ∧
    ¬ |(1 / 19 : ℚ) - 526 / 1000| < 1 / 10 := by
  refine ⟨?_, by norm_num, ?_, ?_⟩
  · norm_num [PL_normfact]
  · norm_num [PowerLaw_pdf, PowerLaw_pdfRaw, PL_normfact, checkBounds1D]
  · rw [abs_sub_comm, abs_of_pos (by norm_num)]
    norm_num

/-- C7 (amended): for every x the raw PowerLaw log pdf is
alpha*log(x) - log(norm) with norm = (max^(alpha+1) - min^(alpha+1))/
(alpha+1), special-cased to log(max/min) at alpha = -1; concretely,
PowerLaw(min=5, max=100, alpha=-2) has norm_fact = 19/100 = 0.19 and
pdf(10) = 10^-2/norm_fact = 1/19, approximately 0.0526. -/
theorem c7_powerlaw (L : ℚ → ℚ) (minpl maxpl : ℚ) (alpha : ℤ) (x : ℚ) :
    PowerLaw_log_pdf L minpl maxpl alpha x =
      (alpha : ℚ) * L x - L (PL_normfact L minpl maxpl alpha) ∧
    PL_normfact L minpl maxpl alpha =
      (if alpha = -1 then L (maxpl / minpl)
       else (maxpl ^ (alpha + 1) - minpl ^ (alpha + 1)) / ((alpha : ℚ) + 1)) ∧
    PL_normfact L 5 100 (-2) = 19 / 100 ∧
    PowerLaw_pdf L 5 100 (-2) 10 = 1 / 19 := by
  refine ⟨rfl, rfl, ?_, ?_⟩
  · norm_num [PL_normfact]
  · norm_num [PowerLaw_pdf, PowerLaw_pdfRaw, PL_normfact, checkBounds1D]

/-- C8: for a broken power law whose second component density at the break
point is nonzero (the valid configurations), the normalisation constant is
1 + pdf1(break)/pdf2(break), the normalised pdf at the break splits into the
two sub-power-law contributions, and those two contributions agree exactly
at the break point (continuity; exact in rational arithmetic, so within any
floating-point tolerance). -/
theorem c8_bpl_continuity (L : ℚ → ℚ) (minpl maxpl : ℚ) (a1 a2 : ℤ) (b : ℚ)
    (h : BrokenPowerLaw.pl2 L minpl maxpl a2 b
      (BrokenPowerLaw.breakPoint minpl maxpl b) ≠ 0) :
    BrokenPowerLaw.norm_fact L minpl maxpl a1 a2 b =
      1 + BrokenPowerLaw.pl1 L minpl maxpl a1 b
          (BrokenPowerLaw.breakPoint minpl maxpl b) /
        BrokenPowerLaw.pl2 L minpl maxpl a2 b
          (BrokenPowerLaw.breakPoint minpl maxpl b) ∧
    BrokenPowerLaw.pdfRaw L minpl maxpl a1 a2 b
        (BrokenPowerLaw.breakPoint minpl maxpl b) =
      BrokenPowerLaw.component1 L minpl maxpl a1 a2 b
          (BrokenPowerLaw.breakPoint minpl maxpl b) +
        BrokenPowerLaw.component2 L minpl maxpl a1 a2 b
          (BrokenPowerLaw.breakPoint minpl maxpl b) ∧
    BrokenPowerLaw.component1 L minpl maxpl a1 a2 b
        (BrokenPowerLaw.breakPoint minpl maxpl b) =
      BrokenPowerLaw.component2 L minpl maxpl a1 a2 b
        (BrokenPowerLaw.breakPoint minpl maxpl b) := by
  refine ⟨rfl, ?_, ?_⟩
  · rw [BrokenPowerLaw.pdfRaw, BrokenPowerLaw.component1,
      BrokenPowerLaw.component2, add_div]
  · rw [BrokenPowerLaw.component1, BrokenPowerLaw.component2, mul_comm,
      div_mul_cancel₀ _ h]

theorem c8_bpl_continuity_witness :
    BrokenPowerLaw.pl2 (fun q => q) 5 100 (-3) (1 / 2)
      (BrokenPowerLaw.breakPoint 5 100 (1 / 2)) ≠ 0 ∧
    BrokenPowerLaw.component1 (fun q => q) 5 100 (-2) (-3) (1 / 2)
        (BrokenPowerLaw.breakPoint 5 100 (1 / 2)) =
      BrokenPowerLaw.component2 (fun q => q) 5 100 (-2) (-3) (1 / 2)
        (BrokenPowerLaw.breakPoint 5 100 (1 / 2)) :=
  ⟨by norm_num [BrokenPowerLaw.pl2, BrokenPowerLaw.breakPoint, PowerLaw_pdf,
      PowerLaw_pdfRaw, PL_normfact, checkBounds1D],
   (c8_bpl_continuity (fun q => q) 5 100 (-2) (-3) (1 / 2)
      (by norm_num [BrokenPowerLaw.pl2, BrokenPowerLaw.breakPoint,
        PowerLaw_pdf, PowerLaw_pdfRaw, PL_normfact, checkBounds1D])).2.2⟩

/-- C9: for every distribution built on the basic_1dimpdf contract (any
underlying raw log pdf f and raw log cdf g) with ordered bounds and any
exponential model with exp(0) = 1: log_pdf is -inf (and pdf is 0) wherever
x is outside [minval, maxval]; log_cdf is -inf (cdf 0) below minval and 0
(cdf 1) above maxval. -/
theorem c9_bound_masking (E : ℚ → ℚ) (f g : ℚ → PFloat) (minv maxv x : ℚ)
    (hb : minv ≤ maxv) (hE : E 0 = 1) :
    ((x < minv ∨ maxv < x) →
      basic_log_pdf f minv maxv x = PFloat.negInf ∧
      basic_pdf E f minv maxv x = PFloat.fin 0) ∧
    (x < minv →
      basic_log_cdf g minv maxv x = PFloat.negInf ∧
      basic_cdf E g minv maxv x = PFloat.fin 0) ∧
    (maxv < x →
      basic_log_cdf g minv maxv x = PFloat.fin 0 ∧
      basic_cdf E g minv maxv x = PFloat.fin 1) := by
  refine ⟨?_, ?_, ?_⟩
  · intro h
    have hc : checkBounds1D x minv maxv = true := by
      cases h with
      | inl h => simp [checkBounds1D, h]
      | inr h => simp [checkBounds1D, h]
    simp [basic_log_pdf, basic_pdf, hc, pexp]
  · intro h
    have hmx : ¬ maxv < x := by linarith
    simp [basic_log_cdf, basic_cdf, h, hmx, pexp]
  · intro h
    simp [basic_log_cdf, basic_cdf, h, pexp, hE]

theorem c9_bound_masking_witness :
    ((2 : ℚ) < 0 ∨ (1 : ℚ) < 2) ∧
    basic_log_pdf (fun _ => PFloat.fin 5) 0 1 2 = PFloat.negInf ∧
    basic_pdf (fun _ => (1 : ℚ)) (fun _ => PFloat.fin 5) 0 1 2 =
      PFloat.fin 0 ∧
    basic_log_cdf (fun _ => PFloat.fin 5) 0 1 2 = PFloat.fin 0 :=
  ⟨Or.inr (by norm_num),
   ((c9_bound_masking (fun _ => 1) (fun _ => PFloat.fin 5)
      (fun _ => PFloat.fin 5) 0 1 2 (by norm_num) rfl).1
      (Or.inr (by norm_num))).1,
   ((c9_bound_masking (fun _ => 1) (fun _ => PFloat.fin 5)
      (fun _ => PFloat.fin 5) 0 1 2 (by norm_num) rfl).1
      (Or.inr (by norm_num))).2,
   ((c9_bound_masking (fun _ => 1) (fun _ => PFloat.fin 5)
      (fun _ => PFloat.fin 5) 0 1 2 (by norm_num) rfl).2.2
      (by norm_num)).1⟩

/-- C10: for every mean 0 < mu < 1 and variance var > 0 whose computed beta
shape parameters a, b are nonzero, converting (mu, var) to (a, b) and back
recovers (mu, var) exactly: the two conversions are exact algebraic
inverses on this domain. -/
theorem c10_beta_roundtrip (mu var : ℚ) (h0 : 0 < mu) (h1 : mu < 1)
    (h2 : 0 < var) (ha : (betadistro_muvar2ab mu var).1 ≠ 0)
    (hb : (betadistro_muvar2ab mu var).2 ≠ 0) :
    betadistro_ab2muvar (betadistro_muvar2ab mu var).1
      (betadistro_muvar2ab mu var).2 = (mu, var) := by
  have hmu : mu ≠ 0 := ne_of_gt h0
  have hvar : var ≠ 0 := ne_of_gt h2
  have h1m : (1 : ℚ) - mu ≠ 0 := by intro hc; apply absurd h1; linarith
  simp only [betadistro_muvar2ab, betadistro_ab2muvar] at ha hb ⊢
  have haK : ((1 - mu) / var - 1 / mu) * mu ^ 2 =
      mu * (mu * (1 - mu) / var - 1) := by
    field_simp
    ring
  have hbK : ((1 - mu) / var - 1 / mu) * mu ^ 2 * (1 / mu - 1) =
      (1 - mu) * (mu * (1 - mu) / var - 1) := by
    field_simp
    ring
  have hKne : mu * (1 - mu) / var - 1 ≠ 0 := by
    intro hc
    apply ha
    rw [haK, hc, mul_zero]
  have hK1ne : mu * (1 - mu) / var ≠ 0 := by
    intro hc
    rcases mul_eq_zero.mp ((div_eq_zero_iff.mp hc).resolve_right hvar) with
      h | h
    · exact hmu h
    · exact h1m h
  rw [hbK, haK]
  have hsum : mu * (mu * (1 - mu) / var - 1) +
      (1 - mu) * (mu * (1 - mu) / var - 1) = mu * (1 - mu) / var - 1 := by
    ring
  rw [hsum, Prod.mk.injEq]
  constructor
  · rw [mul_div_assoc, div_self hKne, mul_one]
  · have hplus : mu * (1 - mu) / var - 1 + 1 = mu * (1 - mu) / var := by
      ring
    rw [hplus]
    rw [div_eq_iff (by
      intro hc
      rcases mul_eq_zero.mp hc with h | h
      · exact hKne (pow_eq_zero_iff (by norm_num : (2:ℕ) ≠ 0) |>.mp h)
      · exact hK1ne h)]
    field_simp
    ring

/-- C6: for every base distribution p and smoothing width s, the
LowpassSmoothedProb construction sets norm = 1 - (trapezoid integral of the
origin pdf over the 1000-point window grid) + (trapezoid integral of the
windowed pdf over the same grid), divides every pdf evaluation by norm, and
its cdf is piecewise: 0 below minval, the interpolated cumulative-sum
numeric CDF (0.5-midpoint rule on the 1000-point grid) inside the window,
and the analytic tail (integral_now + p.cdf(x) - p.cdf(minval+s))/norm from
the window edge upward. -/
theorem c6_lowpass_smoothed (E : ℚ → ℚ) (origin : Basic1D) (s x : ℚ)
    (hs : 0 ≤ s) :
    LowpassSmoothedProb.norm E origin s =
      1 - trapz ((LowpassSmoothedProb.windowGrid origin s).map origin.pdf)
            (LowpassSmoothedProb.windowGrid origin s) +
        trapz ((LowpassSmoothedProb.windowGrid origin s).map
            (fun y => origin.pdf y * highpass_filter E origin.minval s y))
          (LowpassSmoothedProb.windowGrid origin s) ∧
    LowpassSmoothedProb.pdfRaw E origin s x =
      origin.pdf x * highpass_filter E origin.minval s x /
        LowpassSmoothedProb.norm E origin s ∧
    LowpassSmoothedProb.cdfRaw E origin s x =
      (if x < origin.minval then 0
      else if x < origin.minval + s then
        npInterp x (LowpassSmoothedProb.midGrid origin s)
          (LowpassSmoothedProb.cdfNumeric E origin s)
      else
        (LowpassSmoothedProb.integralNow E origin s + origin.cdf x -
            origin.cdf (origin.minval + s)) /
          LowpassSmoothedProb.norm E origin s) := by
  refine ⟨rfl, rfl, ?_⟩
  unfold LowpassSmoothedProb.cdfRaw
  by_cases h1 : origin.minval + s ≤ x
  · have hx1 : ¬ x < origin.minval := by linarith
    have hx2 : ¬ x < origin.minval + s := by linarith
    simp [h1, hx1, hx2]
  · have h1l : x < origin.minval + s := lt_of_not_le h1
    by_cases h2 : origin.minval ≤ x
    · have hx1 : ¬ x < origin.minval := by linarith
      simp [h1, h1l, hx1, h2, le_of_lt h1l]
    · have hx1 : x < origin.minval := lt_of_not_le h2
      simp [h1, h1l, hx1, h2]

theorem c6_lowpass_smoothed_witness :
    (0 : ℚ) ≤ 1 ∧
    LowpassSmoothedProb.cdfRaw (fun q => q)
      ⟨0, 10, fun _ => 1, fun y => y⟩ 1 (-1) = 0 :=
  ⟨by norm_num, by
    have h := (c6_lowpass_smoothed (fun q => q)
      ⟨0, 10, fun _ => 1, fun y => y⟩ 1 (-1) (by norm_num)).2.2
    rw [h, if_pos (show ((-1 : ℚ) <
      (Basic1D.mk 0 10 (fun _ => 1) (fun y => y)).minval) by norm_num)]⟩

theorem c10_beta_roundtrip_witness :
    ((0 : ℚ) < 1 / 2 ∧ (1 / 2 : ℚ) < 1 ∧ (0 : ℚ) < 1 / 8 ∧
      (betadistro_muvar2ab (1 / 2) (1 / 8)).1 ≠ 0 ∧
      (betadistro_muvar2ab (1 / 2) (1 / 8)).2 ≠ 0) ∧
    betadistro_ab2muvar (betadistro_muvar2ab (1 / 2) (1 / 8)).1
      (betadistro_muvar2ab (1 / 2) (1 / 8)).2 = (1 / 2, 1 / 8) :=
  ⟨⟨by norm_num, by norm_num, by norm_num,
    by norm_num [betadistro_muvar2ab], by norm_num [betadistro_muvar2ab]⟩,
   c10_beta_roundtrip (1 / 2) (1 / 8) (by norm_num) (by norm_num) (by norm_num)
     (by norm_num [betadistro_muvar2ab]) (by norm_num [betadistro_muvar2ab])⟩
